import Mathlib

set_option maxRecDepth 8000

/-!
Verification of `suumo_scraper.py` (Tokyo-star-one/Test-drive).

Python strings are modelled as `String`/`List Char`.  Case mappings
(`str.title`) are modelled on the ASCII letters, `\d` in regular
expressions is modelled as the ASCII digits, and the whitespace class
`\s` / `str.strip` is modelled by the standard Unicode whitespace set.
Python `float` is modelled exactly: an IEEE-754 binary64 value is a pair
`(m, e)` standing for `m * 2^e` (`none` standing for an infinity), and
rounding is round-to-nearest, ties-to-even, implemented on `ℕ`.
The Airtable record store is modelled as an explicit state (`Store`)
threaded through the calls that the source performs on it.
-/

/-! ### Character helpers (Python semantics on ASCII) -/

/-- Code point of a character. -/
def cp (c : Char) : ℕ := c.toNat

/-- ASCII upper-case letter. -/
def pyIsUpper (c : Char) : Bool := 65 ≤ cp c && cp c ≤ 90

/-- ASCII lower-case letter. -/
def pyIsLower (c : Char) : Bool := 97 ≤ cp c && cp c ≤ 122

/-- Cased letter (ASCII model of Python's cased characters). -/
def pyIsAlpha (c : Char) : Bool := pyIsUpper c || pyIsLower c

/-- ASCII decimal digit (model of the regex class `\d`). -/
def pyIsDigit (c : Char) : Bool := 48 ≤ cp c && cp c ≤ 57

/-- Python `str.isspace` / regex `\s` character set. -/
def pyIsSpace (c : Char) : Bool :=
  cp c = 32 || (9 ≤ cp c && cp c ≤ 13) || (28 ≤ cp c && cp c ≤ 31) ||
  cp c = 133 || cp c = 160 || cp c = 5760 || (8192 ≤ cp c && cp c ≤ 8202) ||
  cp c = 8232 || cp c = 8233 || cp c = 8239 || cp c = 8287 || cp c = 12288

/-- Upper-case map on ASCII letters, all other characters unchanged. -/
def pyUpper (c : Char) : Char :=
  if pyIsLower c then Char.ofNat (cp c - 32) else c

/-- Lower-case map on ASCII letters, all other characters unchanged. -/
def pyLower (c : Char) : Char :=
  if pyIsUpper c then Char.ofNat (cp c + 32) else c

/-- One step of Python `str.title`: a cased character is lower-cased when
the previous character was cased and upper-cased otherwise; uncased
characters pass through. -/
def titleChar (prev : Bool) (c : Char) : Char :=
  if pyIsAlpha c then (if prev then pyLower c else pyUpper c) else c

/-! ### List-level string operations -/

/-- Python `str.title`, as a fold carrying whether the previous character
was cased. -/
def pyTitleGo : Bool → List Char → List Char
  | _, [] => []
  | prev, c :: cs => titleChar prev c :: pyTitleGo (pyIsAlpha c) cs

/-- Python `str.title` on a character list. -/
def pyTitle (l : List Char) : List Char := pyTitleGo false l

/-- Collapse every whitespace run to a single `' '` (the substitution
`re.sub(r"\s+", " ", s)`); the Boolean records whether the previous
character belonged to a whitespace run. -/
def collapseWS : Bool → List Char → List Char
  | _, [] => []
  | prev, c :: cs =>
    if pyIsSpace c then
      (if prev then collapseWS true cs else ' ' :: collapseWS true cs)
    else c :: collapseWS false cs

/-- Python `str.strip`: drop whitespace from both ends. -/
def pyStrip (l : List Char) : List Char :=
  ((l.dropWhile pyIsSpace).reverse.dropWhile pyIsSpace).reverse

/-- Python `str.replace(old, new)` (all occurrences, left to right,
non-overlapping); the pattern is passed as head plus tail so that it is
non-empty by construction, and the extra `ℕ` argument is fuel that the
wrapper instantiates with the length of the list. -/
def pyReplaceAux (o : Char) (os new : List Char) : ℕ → List Char → List Char
  | 0, l => l
  | _+1, [] => []
  | f+1, c :: cs =>
    if c == o && os.isPrefixOf cs then
      new ++ pyReplaceAux o os new f (List.drop os.length cs)
    else c :: pyReplaceAux o os new f cs

/-- Python `str.replace(old, new)` with `old = o :: os`. -/
def pyReplace (o : Char) (os new : List Char) (l : List Char) : List Char :=
  pyReplaceAux o os new l.length l

/-- Python `str.replace(old, new, 1)` (first occurrence only). -/
def pyReplace1 (o : Char) (os new : List Char) : List Char → List Char
  | [] => []
  | c :: cs =>
    if c == o && os.isPrefixOf cs then new ++ List.drop os.length cs
    else c :: pyReplace1 o os new cs

/-- Whether `pat` occurs as a contiguous sublist. -/
def containsSub (pat : List Char) : List Char → Bool
  | [] => pat.isPrefixOf []
  | c :: cs => pat.isPrefixOf (c :: cs) || containsSub pat cs

/-- Leftmost maximal run of characters satisfying `p`
(the behaviour of `re.search` on a character-class-plus pattern):
`none` when no character satisfies `p`. -/
def firstRun (p : Char → Bool) : List Char → Option (List Char)
  | [] => none
  | c :: cs => if p c then some (c :: cs.takeWhile p) else firstRun p cs

/-- Numeric value of a list of ASCII digits (Python `int` on a digit
run; leading zeros allowed). -/
def natDigits (l : List Char) : ℕ := l.foldl (fun a c => a * 10 + (cp c - 48)) 0

/-- Decimal digit character for `n < 10`. -/
def digitChar (n : ℕ) : Char := Char.ofNat (48 + n)

/-- Decimal digit characters of a number, most significant first; the
first argument is fuel. -/
def natToDigitsAux : ℕ → ℕ → List Char
  | 0, _ => []
  | f+1, n => if n < 10 then [digitChar n] else natToDigitsAux f (n / 10) ++ [digitChar (n % 10)]

/-- Decimal digit characters of a number, most significant first. -/
def natToDigits (n : ℕ) : List Char := natToDigitsAux (n + 1) n

/-- Insert a comma after every three characters (input and output are
reversed digit lists). -/
def group3 : List Char → List Char
  | d1 :: d2 :: d3 :: d4 :: rest => d1 :: d2 :: d3 :: ',' :: group3 (d4 :: rest)
  | l => l

/-- Python `f"{n:,}"` for a natural number: decimal digits with
thousands separators. -/
def commafy (n : ℕ) : String :=
  String.mk (group3 (natToDigits n).reverse).reverse

/-! ### IEEE-754 binary64 model (exact, on natural numbers) -/

/-- Bit length of a natural number (`0` for `0`); first argument is
fuel, instantiated with the number itself. -/
def bitlenAux : ℕ → ℕ → ℕ
  | 0, _ => 0
  | f+1, n => if n = 0 then 0 else bitlenAux f (n / 2) + 1

/-- Bit length of a natural number. -/
def bitlen (n : ℕ) : ℕ := bitlenAux n n

/-- Floor of the base-2 logarithm of the positive fraction `a / b`. -/
def flog2 (a b : ℕ) : ℤ :=
  let d : ℤ := (bitlen a : ℤ) - (bitlen b : ℤ)
  if 0 ≤ d then (if b * 2 ^ d.toNat ≤ a then d else d - 1)
  else (if b ≤ a * 2 ^ (-d).toNat then d else d - 1)

/-- Round the fraction `(a / b) / 2^e` to the nearest integer,
ties to even. -/
def roundAt (a b : ℕ) (e : ℤ) : ℕ :=
  let num := if 0 ≤ e then a else a * 2 ^ (-e).toNat
  let den := if 0 ≤ e then b * 2 ^ e.toNat else b
  let q := num / den
  let r := num % den
  if 2 * r < den then q
  else if den < 2 * r then q + 1
  else if q % 2 = 0 then q else q + 1

/-- Whether `m * 2^e ≥ 2^1024` (the binary64 overflow threshold). -/
def overflows64 (m : ℕ) (e : ℤ) : Bool :=
  if 0 ≤ e then 2 ^ 1024 ≤ m * 2 ^ e.toNat else 2 ^ 1024 * 2 ^ (-e).toNat ≤ m

/-- A finite non-negative binary64 value `m * 2^e`; `none` is `+inf`. -/
def F64 : Type := Option (ℕ × ℤ)

/-- Round the non-negative fraction `a / b` (with `b ≠ 0`) to the
nearest binary64 value, ties to even, overflowing to infinity.  This is
the rounding performed both by Python `float(...)` on a decimal literal
and by a float multiplication. -/
def roundF64 (a b : ℕ) : F64 :=
  if a = 0 then some (0, 0)
  else
    let e := max (flog2 a b - 52) (-1074)
    let m := roundAt a b e
    if overflows64 m e then none else some (m, e)

/-- Float multiplication by the exact integer 10000
(`float * 10000` in Python). -/
def fmul10000 : F64 → F64
  | none => none
  | some (m, e) =>
    if 0 ≤ e then roundF64 (m * 10000 * 2 ^ e.toNat) 1
    else roundF64 (m * 10000) (2 ^ (-e).toNat)

/-- Python `int(f)` on a non-negative float: truncation; `none` when the
value is infinite (`OverflowError`). -/
def intOfF64 : F64 → Option ℕ
  | none => none
  | some (m, e) => some (if 0 ≤ e then m * 2 ^ e.toNat else m / 2 ^ (-e).toNat)

/-- Digit-or-dot character (the regex class `[\d.]`). -/
def isDotDigit (c : Char) : Bool := pyIsDigit c || c == '.'

/-- Whether a run of digit/dot characters is a valid Python `float`
literal: at least one digit and at most one dot. -/
def validDec (run : List Char) : Bool :=
  run.count '.' ≤ 1 && run.any pyIsDigit

/-- Integer-part digits of a digit/dot run (before the first dot). -/
def intDigits (run : List Char) : List Char := run.takeWhile (fun c => !(c == '.'))

/-- Fractional-part digits of a digit/dot run (after the first dot). -/
def fracDigits (run : List Char) : List Char :=
  (run.dropWhile (fun c => !(c == '.'))).drop 1

/-- Python `float(run)` for a digit/dot run: `none` when the run is not
a valid literal (`ValueError`); otherwise the correctly rounded binary64
value of the decimal fraction. -/
def pyFloatOfRun (run : List Char) : Option F64 :=
  if validDec run then
    some (roundF64 (natDigits (intDigits run ++ fracDigits run)) (10 ^ (fracDigits run).length))
  else none

/-! ### Embedded source functions: text normalizers -/

/-- Source `normalize_spaces`: `re.sub(r"\s+", " ", s).strip()`. -/
def normalize_spaces (s : String) : String :=
  String.mk (pyStrip (collapseWS false s.data))

/-- The characters of `"Station"`. -/
def stationTail : List Char := ['S', 't', 'a', 't', 'i', 'o', 'n']

/-- Source `normalize_station_en`: title case, drop the occurrences of
`" Station"`, then replace spaces with hyphens. -/
def normalize_station_en (name_en : String) : String :=
  String.mk (pyReplace ' ' [] ['-']
    (pyReplace ' ' stationTail [] (pyTitle (normalize_spaces name_en).data)))

/-- Source `safe_translate`: the translation service is an oracle
`tr`, with `none` standing for a raised exception; an empty text is
returned without consulting the oracle, and a failure degrades to the
input text. -/
def safe_translate (tr : String → Option String) (text : String) : String :=
  if text = "" then text
  else match tr text with
       | some r => r
       | none => text

/-- Source `parse_price`.  The result is `none` when the Python call
raises (`float` on an invalid run, or `int` of an infinite float). -/
def parse_price (text : String) : Option String :=
  if text = "" then some "0"
  else
    let t := pyReplace ',' [] [] text.data
    if '万' ∈ t then
      match firstRun isDotDigit t with
      | none => some "0"
      | some run =>
        match pyFloatOfRun run with
        | none => none
        | some f =>
          match intOfF64 (fmul10000 f) with
          | none => none
          | some v => some (commafy v)
    else
      match firstRun pyIsDigit t with
      | none => some "0"
      | some run => some (commafy (natDigits run))

/-- Source `price_range_label`. -/
def price_range_label (rent_int : ℤ) : String :=
  if rent_int ≤ 0 then "¥100~199K"
  else
    let k := Int.fdiv rent_int 1000
    if k < 200 then "¥100~199K"
    else if 200 ≤ k ∧ k ≤ 299 then "¥200~299K"
    else if 300 ≤ k ∧ k ≤ 399 then "¥300~399K"
    else if 400 ≤ k ∧ k ≤ 499 then "¥400~499K"
    else if 500 ≤ k ∧ k ≤ 599 then "¥500~599K"
    else if 600 ≤ k ∧ k ≤ 699 then "¥600~699K"
    else if 700 ≤ k ∧ k ≤ 799 then "¥700~799K"
    else if 800 ≤ k ∧ k ≤ 899 then "¥800~899K"
    else if 900 ≤ k ∧ k ≤ 999 then "¥900~999K"
    else "¥1M~"

/-- Source `STATION_ALIASES`. -/
def STATION_ALIASES : List (String × String) :=
  [("駒沢大学", "Komazawa-Daigaku"), ("南新宿", "Minami-Shinjuku"), ("代々木", "Yoyogi")]

/-! ### Embedded source functions: Airtable store model -/

/-- One Airtable table: records `(id, Name)` in creation order, plus
the next fresh record id. -/
structure Store where
  recs : List (ℕ × String)
  next : ℕ
deriving DecidableEq

/-- Source `airtable_find_by_name`: exact-match lookup on the `Name`
field, returning the id of the first matching record. -/
def airtable_find_by_name (s : Store) (name : String) : Option ℕ :=
  if name = "" then none
  else ((s.recs.filter (fun r => r.2 = name)).head?).map (fun r => r.1)

/-- Creation of a record with the given `Name` (the `create` call of the
Airtable client), returning the new id and the new store state. -/
def airtable_create (s : Store) (name : String) : ℕ × Store :=
  (s.next, ⟨s.recs ++ [(s.next, name)], s.next + 1⟩)

/-- Source `airtable_get_or_create_by_name`: lookup by name, creating
the record when the lookup fails.  The Python function always returns an
id (the create branch returns the created record's id). -/
def airtable_get_or_create_by_name (s : Store) (name : String) : ℕ × Store :=
  match airtable_find_by_name s name with
  | some recId => (recId, s)
  | none => airtable_create s name

/-- Source `get_or_create_station_id`: curated alias, otherwise
translate and normalize; then exact lookup, then the space-separated
alternative form, then create under the canonical name. -/
def get_or_create_station_id (tr : String → Option String) (s : Store)
    (station_ja_or_en : String) : Option ℕ × Store :=
  if station_ja_or_en = "" then (none, s)
  else
    let norm :=
      match STATION_ALIASES.lookup station_ja_or_en with
      | some a => a
      | none => normalize_station_en (safe_translate tr station_ja_or_en)
    match airtable_find_by_name s norm with
    | some rec => (some rec, s)
    | none =>
      let alt := String.mk (pyReplace '-' [] [' '] norm.data)
      match airtable_find_by_name s alt with
      | some recAlt => (some recAlt, s)
      | none =>
        let c := airtable_get_or_create_by_name s norm
        (some c.1, c.2)

/-! ### Embedded source functions: address split -/

/-- The characters of `"東京都"`. -/
def tokyoTail : List Char := ['京', '都']

/-- The match `re.match(r"(?P<ward>.+?)区(?P<rest>.*)", t)`: the lazy
`.+?` stops at the first `'区'` preceded by at least one character, `.`
does not match a newline, and the greedy `.*` for the rest group stops
at the first newline.  The accumulator holds the (reversed) characters
consumed so far by the ward group. -/
def wardMatchAux (acc : List Char) : List Char → Option (List Char × List Char)
  | [] => none
  | c :: cs =>
    if c == '区' && !acc.isEmpty then some (acc.reverse, cs.takeWhile (fun d => !(d == '\n')))
    else if c == '\n' then none
    else wardMatchAux (c :: acc) cs

/-- The ward/rest regex match on a whole string. -/
def wardMatch (l : List Char) : Option (List Char × List Char) := wardMatchAux [] l

/-- Source `split_address_to_area_and_street`.  The translation service
is the oracle `tr` (see `safe_translate`). -/
def split_address_to_area_and_street (tr : String → Option String)
    (address_jp : String) : Option String × Option String :=
  if address_jp = "" then (none, none)
  else
    let t := pyReplace1 '東' tokyoTail [] address_jp.data
    match wardMatch t with
    | none => (none, some address_jp)
    | some (w, r) =>
      (some (String.mk (pyStrip w)),
       some (normalize_spaces (safe_translate tr (String.mk (pyStrip r)))))

/-! ### Embedded source functions: payload assembly (`get_suumo_data`) -/

/-- A value of the outbound payload dictionary. -/
inductive PVal where
  | str : String → PVal
  | links : List ℕ → PVal
  | mins : Option ℕ → PVal
  | imgs : List String → PVal
deriving DecidableEq

/-- The extraction results that `get_suumo_data` has in scope when it
assembles the payload (everything the DOM extractors and the non-station
resolvers produced). -/
structure Extracted where
  name : String
  rent : String
  mgmt : String
  layout_id : Option ℕ
  size : String
  area_id : Option ℕ
  street_en : Option String
  deposit : String
  key_money : String
  cover_img : Option String
  plan_img : Option String
  gallery_imgs : List String
  prop_cat_id : Option ℕ
  kind_id : Option ℕ
  pr_id : Option ℕ
deriving DecidableEq

/-- The station-resolution loop of `get_suumo_data`: each extracted
`(station_en, minutes)` pair is resolved through
`airtable_get_or_create_by_name` on the stations table, accumulating the
id list and the minutes list. -/
def resolveStations (s : Store) :
    List (String × Option ℕ) → (List (Option ℕ) × List (Option ℕ)) × Store
  | [] => (([], []), s)
  | (st_en, mins) :: rest =>
    let c := airtable_get_or_create_by_name s st_en
    let r := resolveStations c.2 rest
    ((some c.1 :: r.1.1, mins :: r.1.2), r.2)

/-- The `while len < 2: append None` padding of `get_suumo_data`. -/
def padTo2 {α : Type} : List (Option α) → List (Option α)
  | [] => [none, none]
  | [a] => [a, none]
  | l => l

/-- Singleton-or-empty link list: `[x] if x else []`. -/
def optList (o : Option ℕ) : List ℕ :=
  match o with
  | some i => [i]
  | none => []

/-- The payload dictionary built by `get_suumo_data` (lines 422-485 of
the source), given the extraction results, the extracted station pairs
and the stations-table state; returns the payload together with the
stations-table state after resolution. -/
def get_suumo_data_payload (ex : Extracted) (stations : List (String × Option ℕ))
    (s : Store) : List (String × PVal) × Store :=
  let res := resolveStations s stations
  let station_ids := padTo2 res.1.1
  let minutes_list := padTo2 res.1.2
  ([("Name", .str ex.name),
    ("Property Price", .str ex.rent),
    ("Property Management Fee", .str ex.mgmt),
    ("Property Layout", .links (optList ex.layout_id)),
    ("Property Size", .str ex.size),
    ("Property Locations", .links (optList ex.area_id)),
    ("Location", .str (ex.street_en.getD "")),
    ("Property Deposit", .str ex.deposit),
    ("Property Key Money", .str ex.key_money),
    ("Property Cover Image", .imgs (match ex.cover_img with | some u => [u] | none => [])),
    ("Property Plan Image", .imgs (match ex.plan_img with | some u => [u] | none => [])),
    ("Property Images", .imgs ex.gallery_imgs),
    ("Access One: Train Station", .links (optList (station_ids.getD 0 none))),
    ("Access One: Minutes to Walk", .mins (minutes_list.getD 0 none)),
    ("Access Two: Train Station", .links (optList (station_ids.getD 1 none))),
    ("Access Two: Minutes to Walk", .mins (minutes_list.getD 1 none)),
    ("Property Categories", .links (optList ex.prop_cat_id)),
    ("Property Type", .links (optList ex.kind_id)),
    ("Property Price Range", .links (optList ex.pr_id))],
   res.2)

/-! ### Specification-side definitions (from the claims' wording) -/

/-- The leading (leftmost maximal) run of characters satisfying `p`,
written with `dropWhile`/`takeWhile`. -/
def leadingRun (p : Char → Bool) (l : List Char) : List Char :=
  (l.dropWhile (fun c => !p c)).takeWhile p

/-- Claim-side formulation of `parse_price`: commas are stripped first;
with the ten-thousand marker the leading digit-or-dot run, when it forms
a valid decimal literal, is parsed as a binary64 float, multiplied by
10000 in binary64 and truncated; a run that is not a valid literal
raises; with no run at all the textual zero is returned; without the
marker the leading digit run is parsed exactly. -/
def parse_price_spec (text : String) : Option String :=
  if text = "" then some "0"
  else
    let t := text.data.filter (fun c => !(c == ','))
    if '万' ∈ t then
      let run := leadingRun isDotDigit t
      if run = [] then some "0"
      else if validDec run then
        (intOfF64 (fmul10000 (roundF64 (natDigits (intDigits run ++ fracDigits run))
          (10 ^ (fracDigits run).length)))).map commafy
      else none
    else
      let run := leadingRun pyIsDigit t
      if run = [] then some "0" else some (commafy (natDigits run))

/-- The ten fixed price-range labels, in band order. -/
def tenLabels : List String :=
  ["¥100~199K", "¥200~299K", "¥300~399K", "¥400~499K", "¥500~599K",
   "¥600~699K", "¥700~799K", "¥800~899K", "¥900~999K", "¥1M~"]

/-- Claim-side formulation of `price_range_label`: divide by 1000 and
bucket into 100-wide bands, the band index selecting the label. -/
def price_range_spec (r : ℤ) : String :=
  if r ≤ 0 then "¥100~199K"
  else
    let k := r.toNat / 1000
    if k < 200 then "¥100~199K"
    else if 1000 ≤ k then "¥1M~"
    else tenLabels.getD (k / 100 - 1) "¥1M~"

/-- Space-to-hyphen character map. -/
def hyphChar (c : Char) : Char := if c == ' ' then '-' else c

/-- Claim-side formulation of `normalize_station_en` (as amended):
title-case the whitespace-normalized name, remove every occurrence of
the substring made of a space followed by the word Station, and map each
remaining space to a hyphen. -/
def spec_normalize_station_en (s : String) : String :=
  String.mk ((pyReplace ' ' stationTail [] (pyTitle (normalize_spaces s).data)).map hyphChar)

/-- Claim-side formulation of the ward/rest regex match: the ward is the
first character followed by everything up to the first later `'区'`; the
match succeeds exactly when such a `'区'` exists and no newline precedes
it, and the rest runs from after that `'区'` to the first newline. -/
def specWardSplit (t : List Char) : Option (List Char × List Char) :=
  let pre := t.take 1 ++ (t.drop 1).takeWhile (fun c => !(c == '区'))
  if pre.length < t.length ∧ '\n' ∉ pre then
    some (pre, (t.drop (pre.length + 1)).takeWhile (fun c => !(c == '\n')))
  else none

/-- The fixed key set of the outbound payload, in construction order. -/
def payloadKeys : List String :=
  ["Name", "Property Price", "Property Management Fee", "Property Layout",
   "Property Size", "Property Locations", "Location", "Property Deposit",
   "Property Key Money", "Property Cover Image", "Property Plan Image",
   "Property Images", "Access One: Train Station", "Access One: Minutes to Walk",
   "Access Two: Train Station", "Access Two: Minutes to Walk",
   "Property Categories", "Property Type", "Property Price Range"]

/-! ### Helper lemmas -/

theorem find_none_filter (s : Store) (name : String) (h : name ≠ "")
    (hf : airtable_find_by_name s name = none) :
    s.recs.filter (fun r => r.2 = name) = [] := by
  unfold airtable_find_by_name at hf
  rw [if_neg h] at hf
  cases hv : s.recs.filter (fun r => r.2 = name) with
  | nil => rfl
  | cons a l => rw [hv] at hf; simp at hf

theorem resolveStations_len (s : Store) (l : List (String × Option ℕ)) :
    (resolveStations s l).1.1.length = l.length ∧
    (resolveStations s l).1.2.length = l.length := by
  induction l generalizing s with
  | nil => simp [resolveStations]
  | cons p rest ih =>
    obtain ⟨a, b⟩ := p
    simpa [resolveStations] using ih (airtable_get_or_create_by_name s a).2

theorem padTo2_len {α : Type} (l : List (Option α)) (h : l.length ≤ 2) :
    (padTo2 l).length = 2 := by
  cases l with
  | nil => rfl
  | cons a t =>
    cases t with
    | nil => rfl
    | cons b u =>
      have hu : u = [] := by
        simp only [List.length_cons] at h
        exact List.length_eq_zero.mp (by omega)
      subst hu
      rfl

/-! ### Claim theorems -/

/-- C2: `price_range_label` agrees, for every integer rent amount, with
the claim-side band formulation (divide by 1000; 100-wide bands indexing
the ten fixed labels; non-positive amounts fall back to the lowest
bucket) and always returns one of the ten fixed labels; the claim's
three concrete examples hold. -/
theorem price_range_label_correct (r : ℤ) :
    price_range_label r = price_range_spec r ∧
    price_range_label r ∈ tenLabels ∧
    price_range_label 360000 = "¥300~399K" ∧
    price_range_label 0 = "¥100~199K" ∧
    price_range_label 1200000 = "¥1M~" := by
  have key : price_range_label r = price_range_spec r ∧ price_range_label r ∈ tenLabels := by
    by_cases hr : r ≤ 0
    · constructor
      · simp only [price_range_label, price_range_spec, if_pos hr]
      · simp only [price_range_label, if_pos hr]
        decide
    · obtain ⟨n, hn⟩ := Int.eq_ofNat_of_zero_le (by omega : (0:ℤ) ≤ r)
      obtain ⟨m, hm⟩ : ∃ m, n = m + 1 := ⟨n - 1, by omega⟩
      subst hm
      subst hn
      have hfd : Int.fdiv ((m + 1 : ℕ) : ℤ) 1000 = (((m + 1) / 1000 : ℕ) : ℤ) := rfl
      have htn : ((m + 1 : ℕ) : ℤ).toNat = m + 1 := Int.toNat_natCast (m + 1)
      simp only [price_range_label, price_range_spec, if_neg hr, hfd, htn]
      set q := (m + 1) / 1000 with hq
      rcases (by omega : q < 200 ∨ (200 ≤ q ∧ q ≤ 299) ∨ (300 ≤ q ∧ q ≤ 399) ∨
          (400 ≤ q ∧ q ≤ 499) ∨ (500 ≤ q ∧ q ≤ 599) ∨ (600 ≤ q ∧ q ≤ 699) ∨
          (700 ≤ q ∧ q ≤ 799) ∨ (800 ≤ q ∧ q ≤ 899) ∨ (900 ≤ q ∧ q ≤ 999) ∨
          1000 ≤ q) with h | h | h | h | h | h | h | h | h | h
      · rw [if_pos (show ((q:ℤ) < 200) from by omega), if_pos (show q < 200 from h)]
        exact ⟨rfl, by decide⟩
      · rw [if_neg (show ¬((q:ℤ) < 200) from by omega),
           if_pos (show (200 ≤ (q:ℤ) ∧ (q:ℤ) ≤ 299) from by omega),
           if_neg (show ¬(q < 200) from by omega),
           if_neg (show ¬(1000 ≤ q) from by omega),
           show q / 100 - 1 = 1 from by omega]
        exact ⟨by decide, by decide⟩
      · rw [if_neg (show ¬((q:ℤ) < 200) from by omega),
           if_neg (show ¬(200 ≤ (q:ℤ) ∧ (q:ℤ) ≤ 299) from by omega),
           if_pos (show (300 ≤ (q:ℤ) ∧ (q:ℤ) ≤ 399) from by omega),
           if_neg (show ¬(q < 200) from by omega),
           if_neg (show ¬(1000 ≤ q) from by omega),
           show q / 100 - 1 = 2 from by omega]
        exact ⟨by decide, by decide⟩
      · rw [if_neg (show ¬((q:ℤ) < 200) from by omega),
           if_neg (show ¬(200 ≤ (q:ℤ) ∧ (q:ℤ) ≤ 299) from by omega),
           if_neg (show ¬(300 ≤ (q:ℤ) ∧ (q:ℤ) ≤ 399) from by omega),
           if_pos (show (400 ≤ (q:ℤ) ∧ (q:ℤ) ≤ 499) from by omega),
           if_neg (show ¬(q < 200) from by omega),
           if_neg (show ¬(1000 ≤ q) from by omega),
           show q / 100 - 1 = 3 from by omega]
        exact ⟨by decide, by decide⟩
      · rw [if_neg (show ¬((q:ℤ) < 200) from by omega),
           if_neg (show ¬(200 ≤ (q:ℤ) ∧ (q:ℤ) ≤ 299) from by omega),
           if_neg (show ¬(300 ≤ (q:ℤ) ∧ (q:ℤ) ≤ 399) from by omega),
           if_neg (show ¬(400 ≤ (q:ℤ) ∧ (q:ℤ) ≤ 499) from by omega),
           if_pos (show (500 ≤ (q:ℤ) ∧ (q:ℤ) ≤ 599) from by omega),
           if_neg (show ¬(q < 200) from by omega),
           if_neg (show ¬(1000 ≤ q) from by omega),
           show q / 100 - 1 = 4 from by omega]
        exact ⟨by decide, by decide⟩
      · rw [if_neg (show ¬((q:ℤ) < 200) from by omega),
           if_neg (show ¬(200 ≤ (q:ℤ) ∧ (q:ℤ) ≤ 299) from by omega),
           if_neg (show ¬(300 ≤ (q:ℤ) ∧ (q:ℤ) ≤ 399) from by omega),
           if_neg (show ¬(400 ≤ (q:ℤ) ∧ (q:ℤ) ≤ 499) from by omega),
           if_neg (show ¬(500 ≤ (q:ℤ) ∧ (q:ℤ) ≤ 599) from by omega),
           if_pos (show (600 ≤ (q:ℤ) ∧ (q:ℤ) ≤ 699) from by omega),
           if_neg (show ¬(q < 200) from by omega),
           if_neg (show ¬(1000 ≤ q) from by omega),
           show q / 100 - 1 = 5 from by omega]
        exact ⟨by decide, by decide⟩
      · rw [if_neg (show ¬((q:ℤ) < 200) from by omega),
           if_neg (show ¬(200 ≤ (q:ℤ) ∧ (q:ℤ) ≤ 299) from by omega),
           if_neg (show ¬(300 ≤ (q:ℤ) ∧ (q:ℤ) ≤ 399) from by omega),
           if_neg (show ¬(400 ≤ (q:ℤ) ∧ (q:ℤ) ≤ 499) from by omega),
           if_neg (show ¬(500 ≤ (q:ℤ) ∧ (q:ℤ) ≤ 599) from by omega),
           if_neg (show ¬(600 ≤ (q:ℤ) ∧ (q:ℤ) ≤ 699) from by omega),
           if_pos (show (700 ≤ (q:ℤ) ∧ (q:ℤ) ≤ 799) from by omega),
           if_neg (show ¬(q < 200) from by omega),
           if_neg (show ¬(1000 ≤ q) from by omega),
           show q / 100 - 1 = 6 from by omega]
        exact ⟨by decide, by decide⟩
      · rw [if_neg (show ¬((q:ℤ) < 200) from by omega),
           if_neg (show ¬(200 ≤ (q:ℤ) ∧ (q:ℤ) ≤ 299) from by omega),
           if_neg (show ¬(300 ≤ (q:ℤ) ∧ (q:ℤ) ≤ 399) from by omega),
           if_neg (show ¬(400 ≤ (q:ℤ) ∧ (q:ℤ) ≤ 499) from by omega),
           if_neg (show ¬(500 ≤ (q:ℤ) ∧ (q:ℤ) ≤ 599) from by omega),
           if_neg (show ¬(600 ≤ (q:ℤ) ∧ (q:ℤ) ≤ 699) from by omega),
           if_neg (show ¬(700 ≤ (q:ℤ) ∧ (q:ℤ) ≤ 799) from by omega),
           if_pos (show (800 ≤ (q:ℤ) ∧ (q:ℤ) ≤ 899) from by omega),
           if_neg (show ¬(q < 200) from by omega),
           if_neg (show ¬(1000 ≤ q) from by omega),
           show q / 100 - 1 = 7 from by omega]
        exact ⟨by decide, by decide⟩
      · rw [if_neg (show ¬((q:ℤ) < 200) from by omega),
           if_neg (show ¬(200 ≤ (q:ℤ) ∧ (q:ℤ) ≤ 299) from by omega),
           if_neg (show ¬(300 ≤ (q:ℤ) ∧ (q:ℤ) ≤ 399) from by omega),
           if_neg (show ¬(400 ≤ (q:ℤ) ∧ (q:ℤ) ≤ 499) from by omega),
           if_neg (show ¬(500 ≤ (q:ℤ) ∧ (q:ℤ) ≤ 599) from by omega),
           if_neg (show ¬(600 ≤ (q:ℤ) ∧ (q:ℤ) ≤ 699) from by omega),
           if_neg (show ¬(700 ≤ (q:ℤ) ∧ (q:ℤ) ≤ 799) from by omega),
           if_neg (show ¬(800 ≤ (q:ℤ) ∧ (q:ℤ) ≤ 899) from by omega),
           if_pos (show (900 ≤ (q:ℤ) ∧ (q:ℤ) ≤ 999) from by omega),
           if_neg (show ¬(q < 200) from by omega),
           if_neg (show ¬(1000 ≤ q) from by omega),
           show q / 100 - 1 = 8 from by omega]
        exact ⟨by decide, by decide⟩
      · rw [if_neg (show ¬((q:ℤ) < 200) from by omega),
           if_neg (show ¬(200 ≤ (q:ℤ) ∧ (q:ℤ) ≤ 299) from by omega),
           if_neg (show ¬(300 ≤ (q:ℤ) ∧ (q:ℤ) ≤ 399) from by omega),
           if_neg (show ¬(400 ≤ (q:ℤ) ∧ (q:ℤ) ≤ 499) from by omega),
           if_neg (show ¬(500 ≤ (q:ℤ) ∧ (q:ℤ) ≤ 599) from by omega),
           if_neg (show ¬(600 ≤ (q:ℤ) ∧ (q:ℤ) ≤ 699) from by omega),
           if_neg (show ¬(700 ≤ (q:ℤ) ∧ (q:ℤ) ≤ 799) from by omega),
           if_neg (show ¬(800 ≤ (q:ℤ) ∧ (q:ℤ) ≤ 899) from by omega),
           if_neg (show ¬(900 ≤ (q:ℤ) ∧ (q:ℤ) ≤ 999) from by omega),
           if_neg (show ¬(q < 200) from by omega),
           if_pos (show (1000 ≤ q) from h)]
        exact ⟨rfl, by decide⟩
  exact ⟨key.1, key.2, by decide, by decide, by decide⟩

/-- C3: the pipeline's station resolution (`resolveStations`, the loop
of `get_suumo_data`) performs an exact-name get-or-create only: on a
store that already holds the station under its space-separated surface
form it creates a duplicate record under the hyphenated form, although
the space-separated record is findable, and although the unused helper
`get_or_create_station_id` (which the claim and the source's own comment
describe) does resolve the existing record without creating anything. -/
theorem station_pipeline_skips_alt_form :
    airtable_find_by_name ⟨[(0, "Minami Shinjuku")], 1⟩ "Minami Shinjuku" = some 0 ∧
    resolveStations ⟨[(0, "Minami Shinjuku")], 1⟩ [("Minami-Shinjuku", some 5)]
      = (([some 1], [some 5]), ⟨[(0, "Minami Shinjuku"), (1, "Minami-Shinjuku")], 2⟩) ∧
    get_or_create_station_id (fun _ => none) ⟨[(0, "Minami Shinjuku")], 1⟩ "南新宿"
      = (some 0, ⟨[(0, "Minami Shinjuku")], 1⟩) := by
  refine ⟨by decide, by decide, by decide⟩

/-- C4: in every payload that `get_suumo_data` assembles, each of the
link fields (Property Layout, Property Locations, the two Access
train-station fields, Property Categories, Property Type, Property Price
Range) is the singleton list of the resolved identifier when one was
resolved and the empty list otherwise — a list value in every case,
never a null. -/
theorem link_fields_singleton_or_empty (ex : Extracted)
    (stations : List (String × Option ℕ)) (s : Store) :
    ((get_suumo_data_payload ex stations s).1.lookup "Property Layout"
      = some (.links (ex.layout_id.elim [] (fun i => [i])))) ∧
    ((get_suumo_data_payload ex stations s).1.lookup "Property Locations"
      = some (.links (ex.area_id.elim [] (fun i => [i])))) ∧
    ((get_suumo_data_payload ex stations s).1.lookup "Access One: Train Station"
      = some (.links (((padTo2 (resolveStations s stations).1.1).getD 0 none).elim []
          (fun i => [i])))) ∧
    ((get_suumo_data_payload ex stations s).1.lookup "Access Two: Train Station"
      = some (.links (((padTo2 (resolveStations s stations).1.1).getD 1 none).elim []
          (fun i => [i])))) ∧
    ((get_suumo_data_payload ex stations s).1.lookup "Property Categories"
      = some (.links (ex.prop_cat_id.elim [] (fun i => [i])))) ∧
    ((get_suumo_data_payload ex stations s).1.lookup "Property Type"
      = some (.links (ex.kind_id.elim [] (fun i => [i])))) ∧
    ((get_suumo_data_payload ex stations s).1.lookup "Property Price Range"
      = some (.links (ex.pr_id.elim [] (fun i => [i])))) ∧
    (∀ o : Option ℕ, (o.elim [] (fun i => [i]) = ([] : List ℕ) ↔ o = none) ∧
      ∀ i, o = some i → o.elim [] (fun i2 => [i2]) = [i]) := by
  have hopt : ∀ o : Option ℕ, o.elim [] (fun i => [i]) = optList o := by
    intro o; cases o <;> rfl
  simp only [hopt]
  refine ⟨rfl, rfl, rfl, rfl, rfl, rfl, rfl, ?_⟩
  intro o
  cases o <;> simp [optList]

/-- C4 witness: the link-field theorem at a concrete extraction outcome
with a resolved layout identifier. -/
theorem link_fields_singleton_or_empty_witness :
    (get_suumo_data_payload
        ⟨"N/A", "0", "0", some 7, "N/A", none, none, "0", "0", none, none, [],
          none, none, none⟩ [] ⟨[], 0⟩).1.lookup "Property Layout"
      = some (.links [7]) := by
  have h := (link_fields_singleton_or_empty
    ⟨"N/A", "0", "0", some 7, "N/A", none, none, "0", "0", none, none, [],
      none, none, none⟩ [] ⟨[], 0⟩).1
  exact h.trans (by decide)

/-- C5: the get-or-create resolution is idempotent for every non-empty
name and every store state: calling it twice in sequence returns the
same identifier both times and the second call leaves the store
unchanged (no duplicate record). -/
theorem get_or_create_idempotent (s : Store) (name : String) (h : name ≠ "") :
    (airtable_get_or_create_by_name
        (airtable_get_or_create_by_name s name).2 name).1
      = (airtable_get_or_create_by_name s name).1 ∧
    (airtable_get_or_create_by_name
        (airtable_get_or_create_by_name s name).2 name).2
      = (airtable_get_or_create_by_name s name).2 := by
  unfold airtable_get_or_create_by_name
  cases hf : airtable_find_by_name s name with
  | some i => simp [hf]
  | none =>
    simp only [hf]
    have h2 : airtable_find_by_name ⟨s.recs ++ [(s.next, name)], s.next + 1⟩ name
        = some s.next := by
      unfold airtable_find_by_name
      rw [if_neg h]
      simp [List.filter_append, find_none_filter s name h hf]
    simp [airtable_create, h2]

/-- C5 witness: the idempotence theorem at the empty store and the
concrete name Setagaya. -/
theorem get_or_create_idempotent_witness :
    (airtable_get_or_create_by_name
        (airtable_get_or_create_by_name ⟨[], 0⟩ "Setagaya").2 "Setagaya").1
      = (airtable_get_or_create_by_name ⟨[], 0⟩ "Setagaya").1 ∧
    (airtable_get_or_create_by_name
        (airtable_get_or_create_by_name ⟨[], 0⟩ "Setagaya").2 "Setagaya").2
      = (airtable_get_or_create_by_name ⟨[], 0⟩ "Setagaya").2 :=
  get_or_create_idempotent ⟨[], 0⟩ "Setagaya" (by decide)

/-- C8: the translation wrapper is total over every behaviour of the
translation oracle (a raised exception is the oracle returning `none`):
on failure the original text is returned unchanged, on success the
translation is returned, and an empty input is returned as-is with a
result independent of the oracle (the service is not consulted). -/
theorem safe_translate_never_raises (tr : String → Option String) (text : String) :
    (tr text = none → safe_translate tr text = text) ∧
    (∀ r, tr text = some r → text ≠ "" → safe_translate tr text = r) ∧
    (text = "" → ∀ tr2 : String → Option String, safe_translate tr2 text = text) := by
  refine ⟨?_, ?_, ?_⟩
  · intro hn
    unfold safe_translate
    by_cases h : text = ""
    · simp [h]
    · simp [h, hn]
  · intro r hr h
    unfold safe_translate
    simp [h, hr]
  · intro h tr2
    unfold safe_translate
    simp [h]

/-- C8 witness: a failing oracle on a concrete non-empty text returns
the text unchanged. -/
theorem safe_translate_never_raises_witness :
    safe_translate (fun _ => none) "家賃" = "家賃" :=
  (safe_translate_never_raises (fun _ => none) "家賃").1 rfl

/-- C9: for every extraction outcome with at most two station entries
(the extractor yields at most two), the assembled payload has exactly
the fixed key set, the station-id and minutes lists are padded to
exactly two access slots, and both Access minutes fields carry the
padded minutes values, `none` when absent. -/
theorem payload_keys_fixed (ex : Extracted) (stations : List (String × Option ℕ))
    (s : Store) (h : stations.length ≤ 2) :
    ((get_suumo_data_payload ex stations s).1.map Prod.fst = payloadKeys) ∧
    (padTo2 (resolveStations s stations).1.1).length = 2 ∧
    (padTo2 (resolveStations s stations).1.2).length = 2 ∧
    ((get_suumo_data_payload ex stations s).1.lookup "Access One: Minutes to Walk"
      = some (.mins ((padTo2 (resolveStations s stations).1.2).getD 0 none))) ∧
    ((get_suumo_data_payload ex stations s).1.lookup "Access Two: Minutes to Walk"
      = some (.mins ((padTo2 (resolveStations s stations).1.2).getD 1 none))) := by
  refine ⟨rfl, ?_, ?_, rfl, rfl⟩
  · exact padTo2_len _ (by rw [(resolveStations_len s stations).1]; exact h)
  · exact padTo2_len _ (by rw [(resolveStations_len s stations).2]; exact h)

/-- C9 witness: the padding part of the theorem at a concrete empty
extraction outcome. -/
theorem payload_keys_fixed_witness :
    (padTo2 (resolveStations ⟨[], 0⟩ []).1.1).length = 2 :=
  (payload_keys_fixed
    ⟨"N/A", "0", "0", none, "N/A", none, none, "0", "0", none, none, [], none, none, none⟩
    [] ⟨[], 0⟩ (by decide)).2.1

/-! ### Replace / search lemmas -/

theorem pyReplaceAux_del (o : Char) :
    ∀ (f : ℕ) (l : List Char), l.length ≤ f →
      pyReplaceAux o [] [] f l = l.filter (fun c => !(c == o)) := by
  intro f
  induction f with
  | zero =>
    intro l hl
    rw [List.length_eq_zero.mp (Nat.le_zero.mp hl)]
    rfl
  | succ f ih =>
    intro l hl
    cases l with
    | nil => rfl
    | cons c cs =>
      simp only [pyReplaceAux, List.isPrefixOf, Bool.and_true, List.drop_zero,
        List.length_nil, List.drop]
      have hlen : cs.length ≤ f := by simp only [List.length_cons] at hl; omega
      cases h : c == o with
      | true =>
        rw [if_pos rfl]
        simp [List.filter, h, ih cs hlen]
      | false =>
        rw [if_neg (by simp [h])]
        simp [List.filter, h, ih cs hlen]

theorem pyReplace_del (o : Char) (l : List Char) :
    pyReplace o [] [] l = l.filter (fun c => !(c == o)) :=
  pyReplaceAux_del o l.length l (le_refl _)

theorem pyReplaceAux_subst (o d : Char) :
    ∀ (f : ℕ) (l : List Char), l.length ≤ f →
      pyReplaceAux o [] [d] f l = l.map (fun c => if c == o then d else c) := by
  intro f
  induction f with
  | zero =>
    intro l hl
    rw [List.length_eq_zero.mp (Nat.le_zero.mp hl)]
    rfl
  | succ f ih =>
    intro l hl
    cases l with
    | nil => rfl
    | cons c cs =>
      simp only [pyReplaceAux, List.isPrefixOf, Bool.and_true, List.drop_zero,
        List.length_nil, List.drop]
      have hlen : cs.length ≤ f := by simp only [List.length_cons] at hl; omega
      cases h : c == o with
      | true =>
        rw [if_pos rfl]
        simp [List.map, h, ih cs hlen]
      | false =>
        rw [if_neg (by simp [h])]
        simp [List.map, h, ih cs hlen]

theorem pyReplace_subst (o d : Char) (l : List Char) :
    pyReplace o [] [d] l = l.map (fun c => if c == o then d else c) :=
  pyReplaceAux_subst o d l.length l (le_refl _)

theorem pyReplaceAux_not_contains (o : Char) (os new : List Char) :
    ∀ (f : ℕ) (l : List Char), l.length ≤ f →
      containsSub (o :: os) l = false → pyReplaceAux o os new f l = l := by
  intro f
  induction f with
  | zero =>
    intro l hl _
    rw [List.length_eq_zero.mp (Nat.le_zero.mp hl)]
    rfl
  | succ f ih =>
    intro l hl hc
    cases l with
    | nil => rfl
    | cons c cs =>
      simp only [containsSub, Bool.or_eq_false_iff] at hc
      obtain ⟨h1, h2⟩ := hc
      simp only [List.isPrefixOf] at h1
      have hoc : (c == o && os.isPrefixOf cs) = false := by
        cases hco : c == o with
        | false => simp
        | true =>
          have : c = o := by simpa using hco
          subst this
          simpa using h1
      simp only [pyReplaceAux, hoc, Bool.false_eq_true, if_false]
      have hlen : cs.length ≤ f := by simp only [List.length_cons] at hl; omega
      rw [ih cs hlen h2]

theorem pyReplace_not_contains (o : Char) (os new : List Char) (l : List Char)
    (hc : containsSub (o :: os) l = false) : pyReplace o os new l = l :=
  pyReplaceAux_not_contains o os new l.length l (le_refl _) hc

theorem firstRun_eq (p : Char → Bool) (l : List Char) :
    firstRun p l = if leadingRun p l = [] then none else some (leadingRun p l) := by
  induction l with
  | nil => rfl
  | cons c cs ih =>
    unfold firstRun leadingRun
    cases h : p c with
    | true =>
      simp [List.dropWhile_cons, List.takeWhile_cons, h]
    | false =>
      simp only [List.dropWhile_cons, h, Bool.not_false, if_pos, Bool.false_eq_true,
        if_false]
      simpa [leadingRun] using ih

theorem firstRun_none (p : Char → Bool) (l : List Char)
    (h : firstRun p l = none) : leadingRun p l = [] := by
  rw [firstRun_eq] at h
  by_cases hr : leadingRun p l = []
  · exact hr
  · rw [if_neg hr] at h
    exact Option.noConfusion h

theorem firstRun_some (p : Char → Bool) (l run : List Char)
    (h : firstRun p l = some run) : leadingRun p l = run ∧ run ≠ [] := by
  rw [firstRun_eq] at h
  by_cases hr : leadingRun p l = []
  · rw [if_pos hr] at h
    exact Option.noConfusion h
  · rw [if_neg hr] at h
    have he := Option.some.inj h
    exact ⟨he, he ▸ hr⟩

/-! ### C1 and C6 theorems -/

/-- C1 counterexample: on the input made of a dot and the ten-thousand
marker the regex finds the run consisting of the single dot, Python
`float` raises on it, and `parse_price` raises (`none`) instead of
returning the textual zero that the claim prescribes for an input with
no digits. -/
theorem parse_price_dot_raises :
    parse_price ".万" = none ∧ parse_price ".万" ≠ some "0" := by
  refine ⟨by decide, by decide⟩

/-- C1 (amended): `parse_price` agrees with the claim-side description
on every input — commas stripped first; with the ten-thousand marker the
leading digit-or-dot run is parsed as an IEEE-754 double, multiplied by
10,000 in double precision and truncated, the result carrying thousands
separators; a dots-only run raises instead of returning; with no
digit-or-dot run at all (and on the empty string) the textual zero is
returned; without the marker the leading digit run is parsed exactly —
and the three concrete examples of the claim hold. -/
theorem parse_price_spec_correct :
    (∀ s : String, parse_price s = parse_price_spec s) ∧
    parse_price "16.4万円" = some "164,000" ∧
    parse_price "10000円" = some "10,000" ∧
    parse_price "" = some "0" := by
  refine ⟨?_, by decide, by decide, by decide⟩
  intro s
  unfold parse_price parse_price_spec
  by_cases hs : s = ""
  · simp [hs]
  · rw [if_neg hs, if_neg hs, pyReplace_del]
    set t := s.data.filter (fun c => !(c == ',')) with ht
    by_cases hm : '万' ∈ t
    · rw [if_pos hm, if_pos hm]
      cases hfr : firstRun isDotDigit t with
      | none =>
        simp [firstRun_none isDotDigit t hfr]
      | some run =>
        obtain ⟨h1, h2⟩ := firstRun_some isDotDigit t run hfr
        rw [h1, if_neg h2]
        unfold pyFloatOfRun
        by_cases hv : validDec run = true
        · simp only [hv, if_pos]
          cases hi : intOfF64 (fmul10000 (roundF64
              (natDigits (intDigits run ++ fracDigits run))
              (10 ^ (fracDigits run).length))) with
          | none => simp [hi]
          | some v => simp [hi]
        · simp [hv]
    · rw [if_neg hm, if_neg hm]
      cases hfr : firstRun pyIsDigit t with
      | none =>
        simp [firstRun_none pyIsDigit t hfr]
      | some run =>
        obtain ⟨h1, h2⟩ := firstRun_some pyIsDigit t run hfr
        rw [h1, if_neg h2]

/-! ### Ward-match lemmas -/

theorem wardMatchAux_go (u : List Char) : ∀ acc : List Char, acc ≠ [] →
    wardMatchAux acc u =
      (if (u.takeWhile (fun c => !(c == '区'))).length < u.length ∧
          '\n' ∉ u.takeWhile (fun c => !(c == '区')) then
        some (acc.reverse ++ u.takeWhile (fun c => !(c == '区')),
          (u.drop ((u.takeWhile (fun c => !(c == '区'))).length + 1)).takeWhile
            (fun d => !(d == '\n')))
      else none) := by
  induction u with
  | nil =>
    intro acc hne
    simp [wardMatchAux]
  | cons c v ih =>
    intro acc hne
    have hie : acc.isEmpty = false := by
      cases acc
      · exact absurd rfl hne
      · rfl
    by_cases hk : c = '区'
    · subst hk
      simp [wardMatchAux, hie, List.takeWhile_cons, List.drop_succ_cons]
    · have hb1 : (c == '区') = false := by simp [hk]
      by_cases hn2 : c = '\n'
      · subst hn2
        simp [wardMatchAux, hb1, List.takeWhile_cons]
      · have hb2 : (c == '\n') = false := by simp [hn2]
        have step : wardMatchAux acc (c :: v) = wardMatchAux (c :: acc) v := by
          simp [wardMatchAux, hb1, hb2, hie]
        rw [step, ih (c :: acc) (by simp)]
        simp only [List.takeWhile_cons, hb1, Bool.not_false, if_pos, List.length_cons,
          List.reverse_cons, List.mem_cons, List.drop_succ_cons]
        by_cases hcond : ((v.takeWhile (fun c => !(c == '区'))).length < v.length ∧
            '\n' ∉ v.takeWhile (fun c => !(c == '区')))
        · rw [if_pos hcond, if_pos (by
            refine ⟨by omega, ?_⟩
            intro hmem
            rcases hmem with h | h
            · exact hn2 h.symm
            · exact hcond.2 h)]
          simp
        · rw [if_neg hcond, if_neg (by
            intro hc2
            apply hcond
            refine ⟨by omega, ?_⟩
            intro hmem
            exact hc2.2 (Or.inr hmem))]

theorem wardMatch_eq_spec (t : List Char) : wardMatch t = specWardSplit t := by
  cases t with
  | nil => rfl
  | cons c rest =>
    unfold wardMatch specWardSplit
    by_cases hn : c = '\n'
    · subst hn
      simp [wardMatchAux, List.takeWhile_cons]
    · have hb2 : (c == '\n') = false := by simp [hn]
      have step : wardMatchAux [] (c :: rest) = wardMatchAux [c] rest := by
        simp [wardMatchAux, hb2]
      rw [step, wardMatchAux_go rest [c] (by simp)]
      rw [show List.take 1 (c :: rest) = [c] from rfl,
        show List.drop 1 (c :: rest) = rest from rfl]
      simp only [List.singleton_append, List.length_cons, List.drop_succ_cons,
        List.reverse_singleton, List.mem_cons]
      by_cases hcond : ((rest.takeWhile (fun c => !(c == '区'))).length < rest.length ∧
          '\n' ∉ rest.takeWhile (fun c => !(c == '区')))
      · rw [if_pos hcond, if_pos (by
          refine ⟨by omega, ?_⟩
          intro hmem
          rcases hmem with h | h
          · exact hn h.symm
          · exact hcond.2 h)]
      · rw [if_neg hcond, if_neg (by
          intro hc2
          apply hcond
          refine ⟨by omega, ?_⟩
          intro hmem
          exact hc2.2 (Or.inr hmem))]

/-- C7 counterexample: on an address with no ward-suffix character the
function returns the original string (administrative prefix included) as
the street text, not the prefix-stripped remainder that the claim
prescribes. -/
theorem split_address_fallback_keeps_original :
    split_address_to_area_and_street (fun _ => none) "東京都港町"
      = (none, some "東京都港町") ∧
    (some "東京都港町" : Option String) ≠ some "港町" := by
  refine ⟨by decide, by decide⟩

/-- C7 (amended): for every non-empty address and every translation
behaviour, the split strips the first occurrence of the administrative
prefix, then matches the ward pattern (first ward-suffix `'区'` with at
least one preceding character and no intervening newline); on a match
the ward is the stripped prefix before that `'区'` and the street is the
translated, whitespace-normalized remainder; when the pattern does not
match, the ward is unresolved and the original (unstripped) address is
returned as the street text. -/
theorem split_address_spec_correct (tr : String → Option String) (addr : String)
    (h : addr ≠ "") :
    split_address_to_area_and_street tr addr =
      (match specWardSplit (pyReplace1 '東' tokyoTail [] addr.data) with
       | none => (none, some addr)
       | some (w, r) =>
         (some (String.mk (pyStrip w)),
          some (normalize_spaces (safe_translate tr (String.mk (pyStrip r)))))) := by
  cases hw : specWardSplit (pyReplace1 '東' tokyoTail [] addr.data) with
  | none =>
    have hwm : wardMatch (pyReplace1 '東' tokyoTail [] addr.data) = none := by
      rw [wardMatch_eq_spec]
      exact hw
    unfold split_address_to_area_and_street
    rw [if_neg h]
    simp [hwm]
  | some p =>
    obtain ⟨w, r⟩ := p
    have hwm : wardMatch (pyReplace1 '東' tokyoTail [] addr.data) = some (w, r) := by
      rw [wardMatch_eq_spec]
      exact hw
    unfold split_address_to_area_and_street
    rw [if_neg h]
    simp [hwm]

/-- C7 witness: the amended theorem applied to the concrete address of
the specification's end-to-end example, with a failing translator. -/
theorem split_address_spec_correct_witness :
    split_address_to_area_and_street (fun _ => none) "東京都世田谷区玉堤２"
      = (some "世田谷", some "玉堤２") := by
  have h := split_address_spec_correct (fun _ => none) "東京都世田谷区玉堤２" (by decide)
  exact h.trans (by decide)

/-- C6 counterexample: a `" Station"` occurrence that is not a trailing
suffix is removed as well — the claim asserts it would be kept. -/
theorem normalize_station_inner_occurrence :
    normalize_station_en "tokyo station square" = "Tokyo-Square" ∧
    normalize_station_en "tokyo station square" ≠ "Tokyo-Station-Square" := by
  refine ⟨by decide, by decide⟩

/-! ### Character-level case lemmas -/

theorem cp_ofNat (n : ℕ) (h : n < 55296) : cp (Char.ofNat n) = n := by
  unfold cp Char.ofNat
  rw [dif_pos (Or.inl h)]
  rfl

theorem pyIsLower_spec (c : Char) (h : pyIsLower c = true) :
    97 ≤ cp c ∧ cp c ≤ 122 := by
  simpa [pyIsLower, Bool.and_eq_true, decide_eq_true_eq] using h

theorem pyIsUpper_spec (c : Char) (h : pyIsUpper c = true) :
    65 ≤ cp c ∧ cp c ≤ 90 := by
  simpa [pyIsUpper, Bool.and_eq_true, decide_eq_true_eq] using h

theorem cp_pyUpper (c : Char) (h : pyIsLower c = true) : cp (pyUpper c) = cp c - 32 := by
  unfold pyUpper
  rw [if_pos h]
  exact cp_ofNat _ (by have := pyIsLower_spec c h; omega)

theorem cp_pyLower (c : Char) (h : pyIsUpper c = true) : cp (pyLower c) = cp c + 32 := by
  unfold pyLower
  rw [if_pos h]
  exact cp_ofNat _ (by have := pyIsUpper_spec c h; omega)

theorem pyUpper_eq_self (c : Char) (h : ¬pyIsLower c = true) : pyUpper c = c := by
  unfold pyUpper
  rw [if_neg h]

theorem pyLower_eq_self (c : Char) (h : ¬pyIsUpper c = true) : pyLower c = c := by
  unfold pyLower
  rw [if_neg h]

theorem pyUpper_idem (c : Char) : pyUpper (pyUpper c) = pyUpper c := by
  by_cases h : pyIsLower c = true
  · have hb := pyIsLower_spec c h
    have hcp := cp_pyUpper c h
    apply pyUpper_eq_self
    simp only [pyIsLower, hcp, Bool.and_eq_true, decide_eq_true_eq]
    omega
  · rw [pyUpper_eq_self c h]
    exact pyUpper_eq_self c h

theorem pyLower_idem (c : Char) : pyLower (pyLower c) = pyLower c := by
  by_cases h : pyIsUpper c = true
  · have hb := pyIsUpper_spec c h
    have hcp := cp_pyLower c h
    apply pyLower_eq_self
    simp only [pyIsUpper, hcp, Bool.and_eq_true, decide_eq_true_eq]
    omega
  · rw [pyLower_eq_self c h]
    exact pyLower_eq_self c h

theorem pyIsAlpha_pyUpper (c : Char) : pyIsAlpha (pyUpper c) = pyIsAlpha c := by
  by_cases h : pyIsLower c = true
  · have hb := pyIsLower_spec c h
    have hcp := cp_pyUpper c h
    have h1 : pyIsUpper (pyUpper c) = true := by
      simp only [pyIsUpper, hcp, Bool.and_eq_true, decide_eq_true_eq]
      omega
    have h2 : pyIsAlpha (pyUpper c) = true := by
      simp [pyIsAlpha, h1]
    have h3 : pyIsAlpha c = true := by
      simp [pyIsAlpha, h]
    rw [h2, h3]
  · rw [pyUpper_eq_self c h]

theorem pyIsAlpha_pyLower (c : Char) : pyIsAlpha (pyLower c) = pyIsAlpha c := by
  by_cases h : pyIsUpper c = true
  · have hb := pyIsUpper_spec c h
    have hcp := cp_pyLower c h
    have h1 : pyIsLower (pyLower c) = true := by
      simp only [pyIsLower, hcp, Bool.and_eq_true, decide_eq_true_eq]
      omega
    have h2 : pyIsAlpha (pyLower c) = true := by
      simp [pyIsAlpha, h1]
    have h3 : pyIsAlpha c = true := by
      simp [pyIsAlpha, h]
    rw [h2, h3]
  · rw [pyLower_eq_self c h]

theorem alpha_not_space (c : Char) (h : pyIsAlpha c = true) : pyIsSpace c = false := by
  simp only [pyIsAlpha, Bool.or_eq_true] at h
  rcases h with h | h
  · have := pyIsUpper_spec c h
    simp only [pyIsSpace, Bool.or_eq_false_iff, Bool.and_eq_false_iff,
      decide_eq_false_iff_not]
    omega
  · have := pyIsLower_spec c h
    simp only [pyIsSpace, Bool.or_eq_false_iff, Bool.and_eq_false_iff,
      decide_eq_false_iff_not]
    omega

theorem titleChar_eq_self (prev : Bool) (c : Char) (h : ¬pyIsAlpha c = true) :
    titleChar prev c = c := by
  unfold titleChar
  rw [if_neg h]

theorem titleChar_alpha (prev : Bool) (c : Char) :
    pyIsAlpha (titleChar prev c) = pyIsAlpha c := by
  by_cases ha : pyIsAlpha c = true
  · unfold titleChar
    rw [if_pos ha]
    cases prev with
    | true =>
      show pyIsAlpha (pyLower c) = pyIsAlpha c
      exact pyIsAlpha_pyLower c
    | false =>
      show pyIsAlpha (pyUpper c) = pyIsAlpha c
      exact pyIsAlpha_pyUpper c
  · rw [titleChar_eq_self prev c ha]

theorem titleChar_idem (prev : Bool) (c : Char) :
    titleChar prev (titleChar prev c) = titleChar prev c := by
  by_cases ha : pyIsAlpha c = true
  · cases prev with
    | false =>
      have e1 : titleChar false c = pyUpper c := by
        unfold titleChar
        rw [if_pos ha]
        rfl
      rw [e1]
      have e2 : titleChar false (pyUpper c) = pyUpper (pyUpper c) := by
        unfold titleChar
        rw [if_pos (by rw [pyIsAlpha_pyUpper]; exact ha)]
        rfl
      rw [e2, pyUpper_idem]
    | true =>
      have e1 : titleChar true c = pyLower c := by
        unfold titleChar
        rw [if_pos ha]
        rfl
      rw [e1]
      have e2 : titleChar true (pyLower c) = pyLower (pyLower c) := by
        unfold titleChar
        rw [if_pos (by rw [pyIsAlpha_pyLower]; exact ha)]
        rfl
      rw [e2, pyLower_idem]
  · rw [titleChar_eq_self prev c ha]
    rw [titleChar_eq_self prev c ha]

theorem titleChar_space (prev : Bool) (c : Char) :
    pyIsSpace (titleChar prev c) = pyIsSpace c := by
  by_cases ha : pyIsAlpha c = true
  · rw [alpha_not_space _ (by rw [titleChar_alpha]; exact ha), alpha_not_space _ ha]
  · rw [titleChar_eq_self prev c ha]

theorem titleChar_space_char (prev : Bool) : titleChar prev ' ' = ' ' :=
  titleChar_eq_self prev ' ' (by decide)

theorem titleChar_eq_space_iff (prev : Bool) (c : Char) :
    titleChar prev c = ' ' ↔ c = ' ' := by
  constructor
  · intro h
    by_cases ha : pyIsAlpha c = true
    · exfalso
      have hA := titleChar_alpha prev c
      rw [h, ha] at hA
      exact absurd hA (by decide)
    · rw [← titleChar_eq_self prev c ha]
      exact h
  · intro h
    subst h
    exact titleChar_space_char prev

/-! ### Title / hyphen interaction lemmas -/

theorem hyphChar_eq_self (c : Char) (h : c ≠ ' ') : hyphChar c = c := by
  unfold hyphChar
  rw [if_neg (by simp [h])]

theorem hyphChar_hyphChar (c : Char) : hyphChar (hyphChar c) = hyphChar c := by
  by_cases h : c = ' '
  · subst h
    rfl
  · rw [hyphChar_eq_self c h, hyphChar_eq_self c h]

theorem hyphChar_alpha (c : Char) : pyIsAlpha (hyphChar c) = pyIsAlpha c := by
  by_cases h : c = ' '
  · subst h
    decide
  · rw [hyphChar_eq_self c h]

theorem pyTitleGo_map_hyph (l : List Char) : ∀ prev : Bool,
    pyTitleGo prev ((pyTitleGo prev l).map hyphChar) = (pyTitleGo prev l).map hyphChar := by
  induction l with
  | nil => intro prev; rfl
  | cons c cs ih =>
    intro prev
    simp only [pyTitleGo, List.map_cons]
    have hhead : titleChar prev (hyphChar (titleChar prev c)) = hyphChar (titleChar prev c) := by
      by_cases h : c = ' '
      · subst h
        rw [titleChar_space_char prev]
        rw [show hyphChar ' ' = '-' from rfl]
        exact titleChar_eq_self prev '-' (by decide)
      · have hcne : titleChar prev c ≠ ' ' := fun he => h ((titleChar_eq_space_iff prev c).mp he)
        rw [hyphChar_eq_self _ hcne]
        exact titleChar_idem prev c
    have hstate : pyIsAlpha (hyphChar (titleChar prev c)) = pyIsAlpha c := by
      rw [hyphChar_alpha, titleChar_alpha]
    rw [hhead, hstate, ih (pyIsAlpha c)]

/-! ### Whitespace-shape lemmas -/

theorem collapseWS_mem (l : List Char) : ∀ (b : Bool) (c : Char), c ∈ collapseWS b l →
    c = ' ' ∨ pyIsSpace c = false := by
  induction l with
  | nil =>
    intro b c hc
    simp [collapseWS] at hc
  | cons d cs ih =>
    intro b c hc
    simp only [collapseWS] at hc
    by_cases hd : pyIsSpace d = true
    · rw [if_pos hd] at hc
      cases b with
      | true =>
        rw [if_pos rfl] at hc
        exact ih true c hc
      | false =>
        rw [if_neg (by simp)] at hc
        rcases List.mem_cons.mp hc with h | h
        · exact Or.inl h
        · exact ih true c h
    · rw [if_neg hd] at hc
      rcases List.mem_cons.mp hc with h | h
      · subst h
        exact Or.inr (by simpa using hd)
      · exact ih false c h

theorem pyStrip_mem (l : List Char) (c : Char) (hc : c ∈ pyStrip l) : c ∈ l := by
  unfold pyStrip at hc
  rw [List.mem_reverse] at hc
  have h1 : c ∈ (l.dropWhile pyIsSpace).reverse :=
    (List.dropWhile_sublist pyIsSpace).subset hc
  rw [List.mem_reverse] at h1
  exact (List.dropWhile_sublist pyIsSpace).subset h1

theorem normalize_spaces_space_only (s : String) (c : Char)
    (hc : c ∈ (normalize_spaces s).data) (hs : pyIsSpace c = true) : c = ' ' := by
  have hc2 : c ∈ pyStrip (collapseWS false s.data) := hc
  rcases collapseWS_mem s.data false c (pyStrip_mem _ c hc2) with h | h
  · exact h
  · rw [h] at hs
    exact absurd hs (by simp)

theorem pyTitleGo_mem (l : List Char) : ∀ (prev : Bool) (c : Char),
    c ∈ pyTitleGo prev l → ∃ d ∈ l, ∃ p : Bool, c = titleChar p d := by
  induction l with
  | nil =>
    intro prev c hc
    simp [pyTitleGo] at hc
  | cons d cs ih =>
    intro prev c hc
    simp only [pyTitleGo] at hc
    rcases List.mem_cons.mp hc with h | h
    · exact ⟨d, by simp, prev, h⟩
    · obtain ⟨e, he, p, hp⟩ := ih (pyIsAlpha d) c h
      exact ⟨e, by simp [he], p, hp⟩

theorem pyTitle_space_only (s : String) (c : Char)
    (hc : c ∈ pyTitle (normalize_spaces s).data) (hs : pyIsSpace c = true) : c = ' ' := by
  obtain ⟨d, hd, p, rfl⟩ := pyTitleGo_mem _ false c hc
  rw [titleChar_space] at hs
  have hd2 : d = ' ' := normalize_spaces_space_only s d hd hs
  subst hd2
  exact titleChar_space_char p

theorem map_hyph_no_space (l : List Char)
    (hl : ∀ c ∈ l, pyIsSpace c = true → c = ' ') :
    ∀ c ∈ l.map hyphChar, pyIsSpace c = false := by
  intro c hc
  rw [List.mem_map] at hc
  obtain ⟨d, hd, rfl⟩ := hc
  by_cases h : d = ' '
  · subst h
    decide
  · rw [hyphChar_eq_self d h]
    cases hsp : pyIsSpace d with
    | false => rfl
    | true => exact absurd (hl d hd hsp) h

theorem collapseWS_no_ws (l : List Char) (hl : ∀ c ∈ l, pyIsSpace c = false) :
    ∀ b : Bool, collapseWS b l = l := by
  induction l with
  | nil => intro b; rfl
  | cons d cs ih =>
    intro b
    have hd := hl d (by simp)
    simp only [collapseWS, hd, Bool.false_eq_true, if_false]
    rw [ih (fun c hc => hl c (by simp [hc])) false]

theorem dropWhile_no (p : Char → Bool) (l : List Char)
    (hl : ∀ c ∈ l, p c = false) : l.dropWhile p = l := by
  cases l with
  | nil => rfl
  | cons d cs =>
    have hd := hl d (by simp)
    simp [List.dropWhile_cons, hd]

theorem pyStrip_no_ws (l : List Char) (hl : ∀ c ∈ l, pyIsSpace c = false) :
    pyStrip l = l := by
  unfold pyStrip
  rw [dropWhile_no _ _ hl, dropWhile_no _ _ (fun c hc => hl c (List.mem_reverse.mp hc)),
    List.reverse_reverse]

theorem normalize_spaces_no_ws (l : List Char) (hl : ∀ c ∈ l, pyIsSpace c = false) :
    normalize_spaces (String.mk l) = String.mk l := by
  unfold normalize_spaces
  rw [show (String.mk l).data = l from rfl, collapseWS_no_ws l hl false, pyStrip_no_ws l hl]

theorem containsSub_space_head (os : List Char) (l : List Char) (hl : ' ' ∉ l) :
    containsSub (' ' :: os) l = false := by
  induction l with
  | nil => rfl
  | cons c cs ih =>
    have hcne : ' ' ≠ c := fun h => hl (by simp [← h])
    have hb : (' ' == c) = false := by
      simp only [beq_eq_false_iff_ne, ne_eq]
      exact hcne
    simp only [containsSub, List.isPrefixOf, hb, Bool.false_and, Bool.false_or]
    exact ih (fun h => hl (by simp [h]))

/-- C10 counterexample: `normalize_station_en` is not idempotent — on
the input made of a digit, a space and the word stationy the first pass
gives a digit followed by a lower-case letter, and the second pass
title-cases that letter (a letter after a digit starts a new word). -/
theorem normalize_station_en_not_idem :
    normalize_station_en "3 stationy" = "3y" ∧
    normalize_station_en (normalize_station_en "3 stationy") = "3Y" ∧
    normalize_station_en (normalize_station_en "3 stationy")
      ≠ normalize_station_en "3 stationy" := by
  refine ⟨by decide, by decide, by decide⟩

/-- C10 (amended): `normalize_station_en` is idempotent on every input
whose whitespace-normalized, title-cased form contains no occurrence of
the substring `" Station"`; in general a second application can differ,
because removing such an occurrence can glue a letter onto a
non-letter, which the second title-casing then upper-cases. -/
theorem normalize_station_en_idem (s : String)
    (h : containsSub (' ' :: stationTail) (pyTitle (normalize_spaces s).data) = false) :
    normalize_station_en (normalize_station_en s) = normalize_station_en s := by
  have hfs : normalize_station_en s
      = String.mk ((pyTitle (normalize_spaces s).data).map hyphChar) := by
    unfold normalize_station_en
    rw [pyReplace_not_contains ' ' stationTail [] _ h, pyReplace_subst]
    rfl
  set T := pyTitle (normalize_spaces s).data with hT
  have hsp : ∀ c ∈ T, pyIsSpace c = true → c = ' ' := fun c hc hs =>
    pyTitle_space_only s c hc hs
  have hns : ∀ c ∈ T.map hyphChar, pyIsSpace c = false := map_hyph_no_space T hsp
  rw [hfs]
  unfold normalize_station_en
  rw [normalize_spaces_no_ws _ hns]
  rw [show (String.mk (T.map hyphChar)).data = T.map hyphChar from rfl]
  have h2 : pyTitle (T.map hyphChar) = T.map hyphChar := by
    rw [hT]
    exact pyTitleGo_map_hyph _ false
  rw [h2]
  have hnosp : ' ' ∉ T.map hyphChar := fun hmem => absurd (hns ' ' hmem) (by decide)
  rw [pyReplace_not_contains ' ' stationTail [] _ (containsSub_space_head stationTail _ hnosp)]
  rw [pyReplace_subst]
  rw [show (fun c : Char => if c == ' ' then '-' else c) = hyphChar from rfl]
  rw [List.map_map]
  have hcomp : (T.map hyphChar).map hyphChar = T.map hyphChar := by
    rw [List.map_map]
    exact List.map_congr_left (fun c _ => hyphChar_hyphChar c)
  rw [show hyphChar ∘ hyphChar = fun c => hyphChar (hyphChar c) from rfl]
  rw [show (T.map (fun c => hyphChar (hyphChar c))) = (T.map hyphChar).map hyphChar from by
    rw [List.map_map]; rfl]
  rw [hcomp]

/-- C10 witness: the amended idempotence theorem at a concrete station
name with no Station occurrence. -/
theorem normalize_station_en_idem_witness :
    containsSub (' ' :: stationTail) (pyTitle (normalize_spaces "west exit").data) = false ∧
    normalize_station_en (normalize_station_en "west exit")
      = normalize_station_en "west exit" :=
  ⟨by decide, normalize_station_en_idem "west exit" (by decide)⟩

/-- C6 (amended): `normalize_station_en` title-cases the
whitespace-normalized name, removes every occurrence of the substring
`" Station"` (not only a trailing suffix), and maps each remaining space
to a hyphen; the claim's concrete example holds. -/
theorem normalize_station_en_spec_correct :
    (∀ s : String, normalize_station_en s = spec_normalize_station_en s) ∧
    normalize_station_en "minami shinjuku station" = "Minami-Shinjuku" := by
  refine ⟨?_, by decide⟩
  intro s
  unfold normalize_station_en spec_normalize_station_en
  rw [pyReplace_subst]
  rfl
